import Mathlib

/-
Verification of the deferred-drawing command-buffer core of the nannou `draw`
module (`src/nannou/src/draw/mod.rs` and the primitive modules under
`src/nannou/src/draw/primitive/`).

The Rust source is shallowly embedded: the `f32` scalar is modelled by `ℚ`
(exact, decidable equality; the claims under study never depend on
floating-point rounding), `HashMap<usize, Primitive>` by an association list
with unique keys, `Vec<Option<DrawCommand>>` by `List (Option DrawCommand)`,
and panics (`unwrap`, `assert!`) by `Option`-valued results where `none`
models the panic.  External collaborators that are not part of the sources
(the `geom` module, `wgpu` descriptor types, the lyon tessellators, the
theme and the spatial-property modules) are modelled from the spec, each
marked with a doc comment.
-/

set_option autoImplicit false

namespace Nannou

/-- The scalar type of the embedding.  The source uses `f32`; the claims are
about bookkeeping and control flow, not rounding, so we use `ℚ`. -/
abbrev Scalar := ℚ

/-- A 2-dimensional point (`geom::Point2`). -/
structure Point2 where
  x : Scalar
  y : Scalar
deriving DecidableEq, Repr

/-- A 3-dimensional point / vector (`geom::Point3`, `geom::Vector3`). -/
structure Point3 where
  x : Scalar
  y : Scalar
  z : Scalar
deriving DecidableEq, Repr

/-- Vectors are represented by the same data as points, as in `cgmath`. -/
abbrev Vector3 := Point3

/-- A 4×4 matrix (`cgmath::Matrix4<f32>`), row-major entries `mRC`. -/
structure Mat4 where
  m00 : Scalar
  m01 : Scalar
  m02 : Scalar
  m03 : Scalar
  m10 : Scalar
  m11 : Scalar
  m12 : Scalar
  m13 : Scalar
  m20 : Scalar
  m21 : Scalar
  m22 : Scalar
  m23 : Scalar
  m30 : Scalar
  m31 : Scalar
  m32 : Scalar
  m33 : Scalar
deriving DecidableEq, Repr

namespace Mat4

/-- The identity matrix (`Matrix4::identity`). -/
def identity : Mat4 :=
  { m00 := 1, m01 := 0, m02 := 0, m03 := 0
    m10 := 0, m11 := 1, m12 := 0, m13 := 0
    m20 := 0, m21 := 0, m22 := 1, m23 := 0
    m30 := 0, m31 := 0, m32 := 0, m33 := 1 }

/-- Matrix multiplication, `a * b`. -/
def mul (a b : Mat4) : Mat4 :=
  { m00 := a.m00 * b.m00 + a.m01 * b.m10 + a.m02 * b.m20 + a.m03 * b.m30
    m01 := a.m00 * b.m01 + a.m01 * b.m11 + a.m02 * b.m21 + a.m03 * b.m31
    m02 := a.m00 * b.m02 + a.m01 * b.m12 + a.m02 * b.m22 + a.m03 * b.m32
    m03 := a.m00 * b.m03 + a.m01 * b.m13 + a.m02 * b.m23 + a.m03 * b.m33
    m10 := a.m10 * b.m00 + a.m11 * b.m10 + a.m12 * b.m20 + a.m13 * b.m30
    m11 := a.m10 * b.m01 + a.m11 * b.m11 + a.m12 * b.m21 + a.m13 * b.m31
    m12 := a.m10 * b.m02 + a.m11 * b.m12 + a.m12 * b.m22 + a.m13 * b.m32
    m13 := a.m10 * b.m03 + a.m11 * b.m13 + a.m12 * b.m23 + a.m13 * b.m33
    m20 := a.m20 * b.m00 + a.m21 * b.m10 + a.m22 * b.m20 + a.m23 * b.m30
    m21 := a.m20 * b.m01 + a.m21 * b.m11 + a.m22 * b.m21 + a.m23 * b.m31
    m22 := a.m20 * b.m02 + a.m21 * b.m12 + a.m22 * b.m22 + a.m23 * b.m32
    m23 := a.m20 * b.m03 + a.m21 * b.m13 + a.m22 * b.m23 + a.m23 * b.m33
    m30 := a.m30 * b.m00 + a.m31 * b.m10 + a.m32 * b.m20 + a.m33 * b.m30
    m31 := a.m30 * b.m01 + a.m31 * b.m11 + a.m32 * b.m21 + a.m33 * b.m31
    m32 := a.m30 * b.m02 + a.m31 * b.m12 + a.m32 * b.m22 + a.m33 * b.m32
    m33 := a.m30 * b.m03 + a.m31 * b.m13 + a.m32 * b.m23 + a.m33 * b.m33 }

instance : Mul Mat4 := ⟨mul⟩

/-- Translation matrix (`Matrix4::from_translation`). -/
def from_translation (v : Vector3) : Mat4 :=
  { identity with m03 := v.x, m13 := v.y, m23 := v.z }

/-- Non-uniform scale matrix (`Matrix4::from_nonuniform_scale`). -/
def from_nonuniform_scale (x y z : Scalar) : Mat4 :=
  { identity with m00 := x, m11 := y, m22 := z }

/-- Modelled from the spec: an Euler-angle rotation matrix "built from
radians" (§4.1).  The trigonometric evaluation lives in external float math
(`cgmath`), outside `src/`; it is supplied as the parameter `trig`, mapping
an angle to its cosine/sine pair, so every theorem below holds for an
arbitrary trigonometric interpretation. -/
def from_euler (trig : Scalar → Scalar × Scalar) (v : Vector3) : Mat4 :=
  let cx := (trig v.x).1
  let sx := (trig v.x).2
  let cy := (trig v.y).1
  let sy := (trig v.y).2
  let cz := (trig v.z).1
  let sz := (trig v.z).2
  let rx : Mat4 :=
    { identity with m11 := cx, m12 := -sx, m21 := sx, m22 := cx }
  let ry : Mat4 :=
    { identity with m00 := cy, m02 := sy, m20 := -sy, m22 := cy }
  let rz : Mat4 :=
    { identity with m00 := cz, m01 := -sz, m10 := sz, m11 := cz }
  rz * ry * rx

/-- Homogeneous point transformation (`cgmath::Transform::transform_point`
for `Matrix4`): multiply by the matrix with `w = 1` and divide by the
resulting `w` component (division by zero yields `0` in `ℚ`). -/
def transform_point (m : Mat4) (p : Point3) : Point3 :=
  let x := m.m00 * p.x + m.m01 * p.y + m.m02 * p.z + m.m03
  let y := m.m10 * p.x + m.m11 * p.y + m.m12 * p.z + m.m13
  let z := m.m20 * p.x + m.m21 * p.y + m.m22 * p.z + m.m23
  let w := m.m30 * p.x + m.m31 * p.y + m.m32 * p.z + m.m33
  { x := x / w, y := y / w, z := z / w }

/-- Transform a 2-dimensional point, as the SVG renderers do: extend with
`z = 0`, transform, keep the result. -/
def transform_point2 (m : Mat4) (p : Point2) : Point3 :=
  m.transform_point { x := p.x, y := p.y, z := 0 }

end Mat4

/-- Modelled from the spec: a blend descriptor (`wgpu::BlendDescriptor`) is
"pure data + equality" (§2); `wgpu` is external to `src/`, so the descriptor
is modelled as an opaque equality-comparable code. -/
structure BlendDescriptor where
  code : ℕ
deriving DecidableEq, Repr

/-- Modelled from the spec: the `wgpu::PrimitiveTopology` enumeration; the
topology-mode operations set it to one of these fixed values (§4.1). -/
inductive PrimitiveTopology where
  | PointList
  | LineList
  | LineStrip
  | TriangleList
  | TriangleStrip
deriving DecidableEq, Repr

/-- Modelled from the spec: a sampler configuration
(`wgpu::SamplerDescriptor`), pure data + equality (§2). -/
structure SamplerDescriptor where
  code : ℕ
deriving DecidableEq, Repr

/-- Modelled from the spec: `geom::Rect` (the `geom` module is not under
`src/`): an axis-aligned rectangle given by its x and y ranges. -/
structure GeomRect where
  x_start : Scalar
  x_end : Scalar
  y_start : Scalar
  y_end : Scalar
deriving DecidableEq, Repr

namespace GeomRect

/-- Modelled from the spec: `geom::Rect::overlap` "computes the geometric
intersection" (§3), returning `some` intersection when the rectangles
overlap and `none` otherwise. -/
def overlap (r other : GeomRect) : Option GeomRect :=
  if max r.x_start other.x_start ≤ min r.x_end other.x_end
      ∧ max r.y_start other.y_start ≤ min r.y_end other.y_end then
    some
      { x_start := max r.x_start other.x_start
        x_end := min r.x_end other.x_end
        y_start := max r.y_start other.y_start
        y_end := min r.y_end other.y_end }
  else
    none

end GeomRect

/-- The scissor for a `Draw` render context (`Scissor` in `draw/mod.rs`). -/
inductive Scissor where
  /-- The extent of the scissor matches the bounds of the target texture. -/
  | Full
  /-- Crop the view to the given rect. -/
  | Rect (rect : GeomRect)
  /-- The scissor has no overlap with the previous window. -/
  | NoOverlap
deriving DecidableEq, Repr

/-- A linear sRGB color with alpha (`LinSrgba`). -/
structure LinSrgba where
  red : Scalar
  green : Scalar
  blue : Scalar
  alpha : Scalar
deriving DecidableEq, Repr

/-- `palette::named::BLACK` converted to linear sRGB with full alpha. -/
def black_lin_srgba : LinSrgba := { red := 0, green := 0, blue := 0, alpha := 1 }

/-- Primitive tags used for theme look-ups (`draw::theme::Primitive`). -/
inductive ThemePrimitive where
  | Line
  | Rect
  | Quad
  | Ellipse
  | Tri
  | Path
deriving DecidableEq, Repr

/-- Modelled from the spec: the theme "providing default fill/stroke colors
and line parameters per primitive kind, looked up by primitive tag" (§6);
`theme.rs` is not under `src/`. -/
structure Theme where
  fill_default : LinSrgba
  stroke_default : LinSrgba
  default_line_width : Scalar
deriving DecidableEq, Repr

/-- The default theme value. -/
def Theme.default : Theme :=
  { fill_default := { red := 1, green := 1, blue := 1, alpha := 1 }
    stroke_default := black_lin_srgba
    default_line_width := 1 }

/-- Modelled from the spec: the theme's fill-color look-up by primitive tag. -/
def Theme.fill (t : Theme) (_tag : ThemePrimitive) : LinSrgba :=
  t.fill_default

/-- The current transform, blends, scissor, topology and sampler of a `Draw`
instance (`Context` in `draw/mod.rs`). -/
structure Context where
  transform : Mat4
  alpha_blend : BlendDescriptor
  color_blend : BlendDescriptor
  scissor : Scissor
  topology : PrimitiveTopology
  sampler : SamplerDescriptor
deriving DecidableEq, Repr

/-- The default alpha blend descriptor
(`wgpu::RenderPipelineBuilder::DEFAULT_ALPHA_BLEND`), an opaque code. -/
def default_alpha_blend : BlendDescriptor := { code := 0 }

/-- The default color blend descriptor
(`wgpu::RenderPipelineBuilder::DEFAULT_COLOR_BLEND`), an opaque code. -/
def default_color_blend : BlendDescriptor := { code := 1 }

/-- The default sampler descriptor (`wgpu::SamplerBuilder::new`), opaque. -/
def default_sampler : SamplerDescriptor := { code := 0 }

/-- The `Default` impl for `Context` in `draw/mod.rs`: identity transform,
default blends, `Scissor::Full`, triangle-list topology, default sampler. -/
def Context.default : Context :=
  { transform := Mat4.identity
    alpha_blend := default_alpha_blend
    color_blend := default_color_blend
    scissor := Scissor.Full
    topology := PrimitiveTopology.TriangleList
    sampler := default_sampler }

/-- Modelled from the spec: the position spatial property
(`draw::properties::spatial::position::Properties`, not under `src/`): a
point, whose `transform()` is the corresponding translation matrix. -/
structure Position where
  point : Point3
deriving DecidableEq, Repr

/-- The default position: the origin. -/
def Position.default : Position := { point := { x := 0, y := 0, z := 0 } }

/-- The translation matrix of a position property. -/
def Position.transform (p : Position) : Mat4 :=
  Mat4.from_translation p.point

/-- Modelled from the spec: the orientation spatial property
(`draw::properties::spatial::orientation::Properties`, not under `src/`):
either per-axis Euler angles in radians or a look-at target. -/
inductive Orientation where
  | Axes (v : Vector3)
  | LookAt (p : Point3)
deriving DecidableEq, Repr

/-- The default orientation: zero rotation about every axis. -/
def Orientation.default : Orientation :=
  Orientation.Axes { x := 0, y := 0, z := 0 }

/-- Modelled from the spec: the rotation matrix of an orientation property.
Per §9 the look-at branch is an incomplete feature "rendered as zero
rotation"; the Euler branch uses the trigonometric parameter `trig`. -/
def Orientation.transform (o : Orientation) (trig : Scalar → Scalar × Scalar) : Mat4 :=
  match o with
  | Orientation.Axes v => Mat4.from_euler trig v
  | Orientation.LookAt _ => Mat4.identity

/-- Line cap styles (`lyon::lyon_tessellation::LineCap`), matched on by the
SVG line renderer. -/
inductive LineCap where
  | Butt
  | Square
  | Round
deriving DecidableEq, Repr

/-- Modelled from the spec: stroke tessellation options
(`lyon::tessellation::StrokeOptions`); the fields the sources read are the
start cap and the line width. -/
structure StrokeOptions where
  start_cap : LineCap
  line_width : Scalar
deriving DecidableEq, Repr

/-- The default stroke options (butt caps, unit line width). -/
def StrokeOptions.default : StrokeOptions :=
  { start_cap := LineCap.Butt, line_width := 1 }

/-- Modelled from the spec: the shared path-stroke payload
(`draw::primitive::path::PathStroke`, not under `src/`); the sources read
its position, orientation, optional color and stroke options. -/
structure PathStroke where
  position : Position
  orientation : Orientation
  color : Option LinSrgba
  opts : StrokeOptions
deriving DecidableEq, Repr

/-- The default path-stroke payload. -/
def PathStroke.default : PathStroke :=
  { position := Position.default
    orientation := Orientation.default
    color := none
    opts := StrokeOptions.default }

/-- Modelled from the spec: polygon options
(`draw::primitive::polygon::PolygonOptions`, not under `src/`); the sources
read position, orientation, optional fill color, optional stroke options and
optional stroke color. -/
structure PolygonOptions where
  position : Position
  orientation : Orientation
  color : Option LinSrgba
  stroke_color : Option LinSrgba
  stroke : Option StrokeOptions
deriving DecidableEq, Repr

/-- The default polygon options. -/
def PolygonOptions.default : PolygonOptions :=
  { position := Position.default
    orientation := Orientation.default
    color := none
    stroke_color := none
    stroke := none }

/-- Modelled from the spec: an unfinished polygon
(`draw::primitive::polygon::PolygonInit`, not under `src/`), carrying its
options. -/
structure PolygonInit where
  opts : PolygonOptions
deriving DecidableEq, Repr

/-- The default unfinished polygon. -/
def PolygonInit.default : PolygonInit := { opts := PolygonOptions.default }

/-- Dimension properties (`spatial::dimension::Properties`): optional sizes
along each axis. -/
structure DimensionProperties where
  x : Option Scalar
  y : Option Scalar
  z : Option Scalar
deriving DecidableEq, Repr

/-- The default dimension properties: nothing specified. -/
def DimensionProperties.default : DimensionProperties :=
  { x := none, y := none, z := none }

/-- A path containing only two points (`draw::primitive::line::Line`).  The
source's second field is named `end`, a Lean keyword, rendered here as
`endp`. -/
structure Line where
  path : PathStroke
  start : Option Point2
  endp : Option Point2
deriving DecidableEq, Repr

/-- The `Default` impl for `Line`: default path, no start, no end. -/
def Line.default : Line :=
  { path := PathStroke.default, start := none, endp := none }

/-- Properties related to drawing a `Rect`
(`draw::primitive::rect::Rect`). -/
structure Rect where
  dimensions : DimensionProperties
  polygon : PolygonInit
deriving DecidableEq, Repr

/-- The `Default` impl for `Rect`. -/
def Rect.default : Rect :=
  { dimensions := DimensionProperties.default, polygon := PolygonInit.default }

/-- A quad's four corner points (`geom::Quad<Point2>`). -/
structure GeomQuad where
  a : Point2
  b : Point2
  c : Point2
  d : Point2
deriving DecidableEq, Repr

/-- Properties related to drawing a `Quad`
(`draw::primitive::quad::Quad`). -/
structure Quad where
  quad : GeomQuad
  polygon : PolygonInit
  dimensions : DimensionProperties
deriving DecidableEq, Repr

/-- The `Default` impl for `Quad`: a 100×100 quad about the origin. -/
def Quad.default : Quad :=
  { quad :=
      { a := { x := -50, y := -50 }
        b := { x := -50, y := 50 }
        c := { x := 50, y := 50 }
        d := { x := 50, y := -50 } }
    polygon := PolygonInit.default
    dimensions := DimensionProperties.default }

/-- Properties related to drawing an `Ellipse`
(`draw::primitive::ellipse::Ellipse`). -/
structure Ellipse where
  dimensions : DimensionProperties
  resolution : Option ℕ
  polygon : PolygonInit
deriving DecidableEq, Repr

/-- The `Default` impl for `Ellipse`. -/
def Ellipse.default : Ellipse :=
  { dimensions := DimensionProperties.default
    resolution := none
    polygon := PolygonInit.default }

/-- The closed tagged union over shape kinds (`draw::primitive::Primitive`).
The variants whose payload modules are not under `src/` (arrow, mesh, path,
polygon, text, texture, tri) carry an opaque payload; the claims only need
their tags. -/
inductive Primitive where
  | Arrow (data : ℕ)
  | Ellipse (e : Ellipse)
  | Line (l : Line)
  | MeshVertexless (data : ℕ)
  | Mesh (data : ℕ)
  | PathInit (data : ℕ)
  | PathFill (data : ℕ)
  | PathStroke (p : PathStroke)
  | Path (data : ℕ)
  | PolygonInit (p : PolygonInit)
  | Polygon (data : ℕ)
  | Quad (q : Quad)
  | Rect (r : Rect)
  | Text (data : ℕ)
  | Texture (data : ℕ)
  | Tri (data : ℕ)
deriving DecidableEq, Repr

/-- Commands generated by drawings (`DrawCommand` in `draw/mod.rs`): either
a finalized primitive or a context change. -/
inductive DrawCommand where
  /-- Draw a primitive. -/
  | Primitive (p : Primitive)
  /-- A change in the rendering context occurred. -/
  | Context (c : Context)
deriving DecidableEq, Repr

/-- Modelled from the spec: the re-usable geometry buffer (`draw::Mesh`, not
under `src/`): channels of appended vertex data plus triangle indices. -/
structure Mesh where
  points : List Point3
  colors : List LinSrgba
  indices : List ℕ
deriving DecidableEq, Repr

/-- The empty mesh. -/
def Mesh.default : Mesh := { points := [], colors := [], indices := [] }

/-- Clear every channel of the mesh (`Mesh::clear`). -/
def Mesh.clear (_m : Mesh) : Mesh := Mesh.default

/-- State made accessible via the `DrawingContext` (`IntermediaryState` in
`draw/mod.rs`): re-usable scratch buffers.  Path events are produced by the
external lyon crate and modelled as opaque codes. -/
structure IntermediaryState where
  intermediary_mesh : Mesh
  path_event_buffer : List ℕ
  path_points_colored_buffer : List (Point2 × LinSrgba)
  path_points_textured_buffer : List (Point2 × Point2)
  text_buffer : String
deriving DecidableEq, Repr

/-- The `Default` impl for `IntermediaryState`: everything empty. -/
def IntermediaryState.default : IntermediaryState :=
  { intermediary_mesh := Mesh.default
    path_event_buffer := []
    path_points_colored_buffer := []
    path_points_textured_buffer := []
    text_buffer := "" }

/-- Clear all scratch buffers (`IntermediaryState::reset`). -/
def IntermediaryState.reset (s : IntermediaryState) : IntermediaryState :=
  { intermediary_mesh := s.intermediary_mesh.clear
    path_event_buffer := []
    path_points_colored_buffer := []
    path_points_textured_buffer := []
    text_buffer := "" }

/-- Look up the binding for key `k` in an association list; the model of
`HashMap::get`. -/
def mapLookup (k : ℕ) : List (ℕ × Primitive) → Option Primitive
  | [] => none
  | kv :: tl => if kv.1 = k then some kv.2 else mapLookup k tl

/-- Remove every binding for key `k` from an association list; helper for
the `HashMap<usize, Primitive>` model. -/
def mapErase (k : ℕ) (l : List (ℕ × Primitive)) : List (ℕ × Primitive) :=
  l.filter (fun kv => kv.1 ≠ k)

/-- Insert a binding, replacing any existing binding for the same key; the
model of `HashMap::insert`. -/
def mapInsert (k : ℕ) (v : Primitive) (l : List (ℕ × Primitive)) :
    List (ℕ × Primitive) :=
  (k, v) :: mapErase k l

/-- The inner state of the `Draw` type (`State` in `draw/mod.rs`). -/
structure State where
  /-- The last context used to draw an image. -/
  last_draw_context : Option Context
  /-- If `some`, the frame is first cleared with the given color. -/
  background_color : Option LinSrgba
  /-- Primitives that are in the process of being drawn, keyed by their
  reserved index into `draw_commands`. -/
  drawing : List (ℕ × Primitive)
  /-- The list of recorded draw commands; an element is `none` while its
  primitive is still in `drawing`. -/
  draw_commands : List (Option DrawCommand)
  /-- Scratch state made accessible via the `DrawingContext`. -/
  intermediary_state : IntermediaryState
  /-- The theme containing default values. -/
  theme : Theme
deriving DecidableEq, Repr

/-- The `Default` impl for `State` in `draw/mod.rs`. -/
def State.default : State :=
  { last_draw_context := none
    background_color := none
    drawing := []
    draw_commands := []
    intermediary_state := IntermediaryState.default
    theme := Theme.default }

namespace State

/-- Insert the draw primitive command at the given index
(`State::insert_draw_command`): a write through `Vec::get_mut`, which does
nothing when the index is out of bounds. -/
def insert_draw_command (s : State) (index : ℕ) (prim : Primitive) : State :=
  if index < s.draw_commands.length then
    { s with
        draw_commands :=
          s.draw_commands.set index (some (DrawCommand.Primitive prim)) }
  else s

/-- Drain any remaining `drawing`s and insert them as draw commands
(`State::finish_remaining_drawings`): the pending map is emptied and each
pending primitive is written into its reserved slot. -/
def finish_remaining_drawings (s : State) : State :=
  s.drawing.foldl (fun acc ip => acc.insert_draw_command ip.1 ip.2)
    { s with drawing := [] }

/-- Finish the drawing at the given index if it is not yet complete
(`State::finish_drawing`). -/
def finish_drawing (s : State) (index : ℕ) : State :=
  match mapLookup index s.drawing with
  | some prim =>
      ({ s with drawing := mapErase index s.drawing }).insert_draw_command
        index prim
  | none => s

/-- Resets all state within the `Draw` instance (`State::reset`). -/
def reset (s : State) : State :=
  { s with
      background_color := none
      last_draw_context := none
      drawing := []
      draw_commands := []
      intermediary_state := s.intermediary_state.reset }

/-- Add the given primitive to be drawn (`Draw::a`, state part): if the
calling handle's context differs from `last_draw_context`, a context-change
command is pushed first and `last_draw_context` is updated; then the next
slot is reserved with a `none` placeholder and the primitive is put into the
pending map keyed by that slot's index, which is returned. -/
def a (s : State) (ctx : Context) (prim : Primitive) : State × ℕ :=
  let s1 :=
    if s.last_draw_context = some ctx then s
    else
      { s with
          draw_commands := s.draw_commands ++ [some (DrawCommand.Context ctx)]
          last_draw_context := some ctx }
  let index := s1.draw_commands.length
  ({ s1 with
       draw_commands := s1.draw_commands ++ [none]
       drawing := mapInsert index prim s1.drawing },
   index)

/-- Finish any drawings-in-progress and drain the inner draw commands
(`Draw::drain_commands`): force-finalize the pending map, swap the command
list for an empty one and yield the non-`none` entries in order. -/
def drain_commands (s : State) : State × List DrawCommand :=
  let s1 := s.finish_remaining_drawings
  let cmds := s1.draw_commands
  ({ s1 with draw_commands := [] }, cmds.filterMap id)

end State

/-- A `Draw` handle: a reference to the shared state plus the handle's own
immutable context snapshot.  The Rust handle holds `Rc<RefCell<State>>`; in
this pure embedding the state component carries the shared state's current
value, and every state-mutating operation is written as an explicit state
transformer, so "the shared state is unchanged" is expressed as equality of
the state components. -/
structure Draw where
  state : State
  context : Context
deriving DecidableEq, Repr

namespace Draw

/-- The `Default` impl for `Draw`: fresh state and default context. -/
def default : Draw := { state := State.default, context := Context.default }

/-- Produce a new `Draw` instance with the given context (`Draw::context`,
the private constructor all context-changing methods funnel through): the
shared state is the same, only the context differs.  Named `with_context`
because `context` is the field accessor. -/
def with_context (d : Draw) (context : Context) : Draw :=
  { state := d.state, context := context }

/-- Produce a new `Draw` transformed by the given matrix
(`Draw::transform`): the new transform is the existing transform applied to
the given one. -/
def transform (d : Draw) (transform_matrix : Mat4) : Draw :=
  d.with_context { d.context with
    transform := d.context.transform * transform_matrix }

/-- Translate the origin by the given vector (`Draw::translate`). -/
def translate (d : Draw) (v : Vector3) : Draw :=
  d.transform (Mat4.from_translation v)

/-- Scale by the given amount along each axis (`Draw::scale_axes`). -/
def scale_axes (d : Draw) (v : Vector3) : Draw :=
  d.transform (Mat4.from_nonuniform_scale v.x v.y v.z)

/-- Scale uniformly by the given value (`Draw::scale`). -/
def scale (d : Draw) (s : Scalar) : Draw :=
  d.scale_axes { x := s, y := s, z := s }

/-- Apply a Euler-angle rotation (`Draw::euler`); the trigonometric
evaluation is the external-float parameter `trig`. -/
def euler (d : Draw) (trig : Scalar → Scalar × Scalar) (v : Vector3) : Draw :=
  d.transform (Mat4.from_euler trig v)

/-- Specify the orientation along each axis in radians (`Draw::radians`). -/
def radians (d : Draw) (trig : Scalar → Scalar × Scalar) (v : Vector3) : Draw :=
  d.euler trig v

/-- Specify the orientation around the z axis in radians
(`Draw::z_radians`). -/
def z_radians (d : Draw) (trig : Scalar → Scalar × Scalar) (z : Scalar) : Draw :=
  d.radians trig { x := 0, y := 0, z := z }

/-- Rotate on the 2D plane by the given radians (`Draw::rotate`, equivalent
to `z_radians`). -/
def rotate (d : Draw) (trig : Scalar → Scalar × Scalar) (radians : Scalar) : Draw :=
  d.z_radians trig radians

/-- Draw with the given alpha blend descriptor (`Draw::alpha_blend`). -/
def alpha_blend (d : Draw) (blend_descriptor : BlendDescriptor) : Draw :=
  d.with_context { d.context with alpha_blend := blend_descriptor }

/-- Draw with the given color blend descriptor (`Draw::color_blend`). -/
def color_blend (d : Draw) (blend_descriptor : BlendDescriptor) : Draw :=
  d.with_context { d.context with color_blend := blend_descriptor }

/-- Short-hand for `color_blend` (`Draw::blend`). -/
def blend (d : Draw) (blend_descriptor : BlendDescriptor) : Draw :=
  d.color_blend blend_descriptor

/-- Crop to the given rectangle (`Draw::scissor`): the result is the overlap
between the existing scissor and the new rect. -/
def scissor (d : Draw) (scissor : GeomRect) : Draw :=
  d.with_context { d.context with
    scissor :=
      match d.context.scissor with
      | Scissor.Full => Scissor.Rect scissor
      | Scissor.Rect rect =>
          match rect.overlap scissor with
          | some o => Scissor.Rect o
          | none => Scissor.NoOverlap
      | Scissor.NoOverlap => Scissor.NoOverlap }

/-- Set the primitive topology (`Draw::primitive_topology`, shared by the
three mode methods). -/
def primitive_topology (d : Draw) (topology : PrimitiveTopology) : Draw :=
  d.with_context { d.context with topology := topology }

/-- Render as a wireframe (`Draw::line_mode`). -/
def line_mode (d : Draw) : Draw :=
  d.primitive_topology PrimitiveTopology.LineList

/-- Render as points (`Draw::point_mode`). -/
def point_mode (d : Draw) : Draw :=
  d.primitive_topology PrimitiveTopology.PointList

/-- Render as triangles, the default (`Draw::triangle_mode`). -/
def triangle_mode (d : Draw) : Draw :=
  d.primitive_topology PrimitiveTopology.TriangleList

/-- Sample textures via the given descriptor (`Draw::sampler`). -/
def sampler (d : Draw) (desc : SamplerDescriptor) : Draw :=
  d.with_context { d.context with sampler := desc }

end Draw

/-- One observable operation on the shared draw state, used to describe the
states reachable through the public API.  `a`, `finishDrawing`,
`finishRemaining`, `drain` and `reset` mirror the methods in `draw/mod.rs`;
`mutatePrim` is the map-and-replace a `Drawing` builder method performs on
its pending primitive, and `background` is the terminal call of the
background builder (both modelled from the spec: `drawing.rs` and
`background.rs` are not under `src/`). -/
inductive Op where
  | a (ctx : Context) (p : Primitive)
  | finishDrawing (index : ℕ)
  | finishRemaining
  | drain
  | reset
  | background (color : LinSrgba)
  | mutatePrim (index : ℕ) (f : Primitive → Primitive)

/-- Apply one operation to the shared state. -/
def State.applyOp (s : State) : Op → State
  | Op.a ctx p => (s.a ctx p).1
  | Op.finishDrawing index => s.finish_drawing index
  | Op.finishRemaining => s.finish_remaining_drawings
  | Op.drain => s.drain_commands.1
  | Op.reset => s.reset
  | Op.background color => { s with background_color := some color }
  | Op.mutatePrim index f =>
      { s with
          drawing :=
            s.drawing.map (fun kv => if kv.1 = index then (kv.1, f kv.2) else kv) }

/-- Run a sequence of operations from a given state. -/
def State.runFrom (s : State) (ops : List Op) : State :=
  ops.foldl State.applyOp s

/-- Run a sequence of operations from a freshly created state; the states of
the form `State.run ops` are exactly the reachable shared states. -/
def State.run (ops : List Op) : State :=
  State.runFrom State.default ops

/-- The sparse-slot invariant of §3: keys of the pending map are distinct,
every pending index addresses a `none` slot of the command list, and every
`none` slot has a pending primitive. -/
def InvP (dw : List (ℕ × Primitive)) (dc : List (Option DrawCommand)) : Prop :=
  (dw.map Prod.fst).Nodup
  ∧ (∀ i p, mapLookup i dw = some p → dc[i]? = some none)
  ∧ (∀ i, dc[i]? = some none → ∃ p, mapLookup i dw = some p)

/-- The invariant, read off a whole state. -/
def State.Inv (s : State) : Prop :=
  InvP s.drawing s.draw_commands

-- Concrete sample values used by the witness theorems.

/-- A sample drawing context: the default context. -/
def demo_context : Context := Context.default

/-- A sample primitive: a default (never-configured) line. -/
def demo_primitive : Primitive := Primitive.Line Line.default

/-- A sample shared state in which one shape has been drawn, so that
`last_draw_context` records the default context. -/
def demo_state : State := (State.default.a demo_context demo_primitive).1

/-- A sample operation sequence that leaves a primitive pending. -/
def demo_ops : List Op := [Op.a demo_context demo_primitive]

-- The per-primitive render capabilities exercised by the claims.

/-- The context handed to `render_primitive`
(`draw::renderer::RenderContext`); the tessellators it carries are external,
and `trig` is the external trigonometric evaluation parameter. -/
structure RenderContext where
  transform : Mat4
  theme : Theme
  trig : Scalar → Scalar × Scalar

/-- The result marker returned by the render capabilities
(`draw::renderer::PrimitiveRender`); its texture handle is opaque. -/
structure PrimitiveRender where
  texture_view : Option ℕ
deriving DecidableEq, Repr

/-- The `Default` impl for `PrimitiveRender`. -/
def PrimitiveRender.default : PrimitiveRender := { texture_view := none }

/-- Modelled from the spec: `path::render_path_events` (in `path.rs`, not
under `src/`) runs the external tessellator, "producing zero or more
vertices/indices appended to a shared geometry buffer" (§4.5), with the
color falling back to the theme's default for the tag.  The model appends
one transformed vertex per input point with sequential indices. -/
def render_path_events (points : List Point2) (color : Option LinSrgba)
    (transform : Mat4) (theme : Theme) (tag : ThemePrimitive)
    (mesh : Mesh) : Mesh :=
  { points := mesh.points ++ points.map (fun p => transform.transform_point2 p)
    colors := mesh.colors ++ points.map (fun _ => color.getD (theme.fill tag))
    indices :=
      mesh.indices
        ++ (List.range points.length).map (fun i => mesh.points.length + i) }

/-- Modelled from the spec: `polygon::render_points_themed` (in
`polygon.rs`, not under `src/`): tessellate the given boundary points with
the polygon options' transform and themed fill color. -/
def render_points_themed (opts : PolygonOptions) (points : List Point2)
    (ctxt : RenderContext) (tag : ThemePrimitive) (mesh : Mesh) : Mesh :=
  render_path_events points opts.color
    (ctxt.transform * (opts.position.transform
      * opts.orientation.transform ctxt.trig))
    ctxt.theme tag mesh

/-- Modelled from the spec: `polygon::render_events_themed` (in
`polygon.rs`, not under `src/`), applied by the ellipse to a lyon arc path;
the arc's trigonometric sampling is external geometry (§1), so the model
records the arc's start point. -/
def render_events_themed (opts : PolygonOptions) (start : Point2)
    (ctxt : RenderContext) (tag : ThemePrimitive) (mesh : Mesh) : Mesh :=
  render_path_events [start] opts.color
    (ctxt.transform * (opts.position.transform
      * opts.orientation.transform ctxt.trig))
    ctxt.theme tag mesh

/-- A line's render-into-mesh capability (`Line::render_primitive`): unset
endpoints default to the origin, and a line whose start equals its end
returns immediately without touching the mesh. -/
def Line.render_primitive (l : Line) (ctxt : RenderContext) (mesh : Mesh) :
    Mesh × PrimitiveRender :=
  if l.start.getD { x := 0, y := 0 } = l.endp.getD { x := 0, y := 0 } then
    (mesh, PrimitiveRender.default)
  else
    (render_path_events
      [l.start.getD { x := 0, y := 0 }, l.endp.getD { x := 0, y := 0 }]
      l.path.color
      (ctxt.transform
        * (l.path.position.transform * l.path.orientation.transform ctxt.trig))
      ctxt.theme ThemePrimitive.Line mesh,
     PrimitiveRender.default)

/-- Modelled from the spec: the corner points of the centered
`geom::Rect::from_wh(w, h)` (the `geom` module is not under `src/`). -/
def rect_corners (w h : Scalar) : List Point2 :=
  [{ x := -(w / 2), y := -(h / 2) }, { x := -(w / 2), y := h / 2 },
   { x := w / 2, y := h / 2 }, { x := w / 2, y := -(h / 2) }]

/-- A rect's render-into-mesh capability (`Rect::render_primitive`).  The
source asserts `maybe_z.is_none()` with message "z dimension support for
rect is unimplemented"; the panic is modelled as `none`. -/
def Rect.render_primitive (r : Rect) (ctxt : RenderContext) (mesh : Mesh) :
    Option (Mesh × PrimitiveRender) :=
  if r.dimensions.z.isSome then none
  else
    some
      (render_points_themed r.polygon.opts
        (rect_corners (r.dimensions.x.getD 100) (r.dimensions.y.getD 100))
        ctxt ThemePrimitive.Rect mesh,
       PrimitiveRender.default)

/-- Modelled from the spec: the `resolution` circumference points of
`geom::Ellipse` (external geometry, §1); their trigonometric placement is
external, so the model keeps the count and the arc start. -/
def ellipse_circumference (w h : Scalar) (resolution : ℕ) : List Point2 :=
  List.replicate resolution { x := w / 2, y := 0 }

/-- An ellipse's render-into-mesh capability (`Ellipse::render_primitive`).
The source asserts `maybe_z.is_none()` ("z dimension support for ellipse is
unimplemented", modelled as `none`), takes absolute dimensions defaulting to
100, and renders either a lyon arc (skipped when both radii are zero) or a
`resolution`-point circumference. -/
def Ellipse.render_primitive (e : Ellipse) (ctxt : RenderContext)
    (mesh : Mesh) : Option (Mesh × PrimitiveRender) :=
  if e.dimensions.z.isSome then none
  else
    match e.resolution with
    | none =>
        if ((e.dimensions.x.map (fun q => |q|)).getD 100 / 2)
              * ((e.dimensions.x.map (fun q => |q|)).getD 100 / 2)
            + ((e.dimensions.y.map (fun q => |q|)).getD 100 / 2)
              * ((e.dimensions.y.map (fun q => |q|)).getD 100 / 2) > 0 then
          some
            (render_events_themed e.polygon.opts
              { x := (e.dimensions.x.map (fun q => |q|)).getD 100 / 2, y := 0 }
              ctxt ThemePrimitive.Ellipse mesh,
             PrimitiveRender.default)
        else some (mesh, PrimitiveRender.default)
    | some resolution =>
        some
          (render_points_themed e.polygon.opts
            (ellipse_circumference ((e.dimensions.x.map (fun q => |q|)).getD 100)
              ((e.dimensions.y.map (fun q => |q|)).getD 100) resolution)
            ctxt ThemePrimitive.Ellipse mesh,
           PrimitiveRender.default)

/-- The four vertices of a quad, in order (`geom::Quad::vertices`). -/
def quad_vertices (q : GeomQuad) : List Point2 :=
  [q.a, q.b, q.c, q.d]

/-- Modelled from the spec: the width of the quad's bounding rect
(`geom::Quad::bounding_rect`, external geometry). -/
def GeomQuad.bounding_w (q : GeomQuad) : Scalar :=
  max (max q.a.x q.b.x) (max q.c.x q.d.x)
    - min (min q.a.x q.b.x) (min q.c.x q.d.x)

/-- Modelled from the spec: the height of the quad's bounding rect. -/
def GeomQuad.bounding_h (q : GeomQuad) : Scalar :=
  max (max q.a.y q.b.y) (max q.c.y q.d.y)
    - min (min q.a.y q.b.y) (min q.c.y q.d.y)

/-- Modelled from the spec: the quad's centroid (`geom::Quad::centroid`,
external geometry), taken as the vertex average. -/
def GeomQuad.centroid (q : GeomQuad) : Point2 :=
  { x := (q.a.x + q.b.x + q.c.x + q.d.x) / 4
    y := (q.a.y + q.b.y + q.c.y + q.d.y) / 4 }

/-- The dimension-scaling step shared by `Quad::render_primitive` and
`Quad::render_svg_element`: when an x or y dimension is given, scale each
vertex about the centroid by the dimension over the bounding extent. -/
def quad_scaled (q : GeomQuad) (dimensions : DimensionProperties) : GeomQuad :=
  if dimensions.x.isSome ∨ dimensions.y.isSome then
    { a := { x := q.centroid.x
               + (q.a.x - q.centroid.x)
                 * ((dimensions.x.map (fun x => x / q.bounding_w)).getD 1)
             y := q.centroid.y
               + (q.a.y - q.centroid.y)
                 * ((dimensions.y.map (fun y => y / q.bounding_h)).getD 1) }
      b := { x := q.centroid.x
               + (q.b.x - q.centroid.x)
                 * ((dimensions.x.map (fun x => x / q.bounding_w)).getD 1)
             y := q.centroid.y
               + (q.b.y - q.centroid.y)
                 * ((dimensions.y.map (fun y => y / q.bounding_h)).getD 1) }
      c := { x := q.centroid.x
               + (q.c.x - q.centroid.x)
                 * ((dimensions.x.map (fun x => x / q.bounding_w)).getD 1)
             y := q.centroid.y
               + (q.c.y - q.centroid.y)
                 * ((dimensions.y.map (fun y => y / q.bounding_h)).getD 1) }
      d := { x := q.centroid.x
               + (q.d.x - q.centroid.x)
                 * ((dimensions.x.map (fun x => x / q.bounding_w)).getD 1)
             y := q.centroid.y
               + (q.d.y - q.centroid.y)
                 * ((dimensions.y.map (fun y => y / q.bounding_h)).getD 1) } }
  else q

/-- A quad's render-into-mesh capability (`Quad::render_primitive`).  The
source reads the z dimension into the unused `_maybe_z` and performs no
assertion on it; the `Option` result mirrors the signature of the shapes
that can panic, and for the quad it is always `some`. -/
def Quad.render_primitive (q : Quad) (ctxt : RenderContext) (mesh : Mesh) :
    Option (Mesh × PrimitiveRender) :=
  some
    (render_points_themed q.polygon.opts
      (quad_vertices (quad_scaled q.quad q.dimensions))
      ctxt ThemePrimitive.Quad mesh,
     PrimitiveRender.default)

-- The SVG render capabilities.

/-- The context handed to `render_svg_element`
(`draw::svg_renderer::SvgRenderContext`), with the external trigonometric
parameter. -/
structure SvgRenderContext where
  transform : Mat4
  theme : Theme
  trig : Scalar → Scalar × Scalar

/-- The color formatting helper (`svg_renderer::color_string`), producing an
`rgba(...)` string with components scaled to 0–255.  The linear-to-sRGB
gamma conversion (`Srgb::from_linear`) lives in the external palette crate
and is modelled as the identity on components. -/
def color_string (color : LinSrgba) : String :=
  "rgba(" ++ toString (color.red * 255) ++ ", "
    ++ toString (color.green * 255) ++ ", "
    ++ toString (color.blue * 255) ++ ", "
    ++ toString (color.alpha * 255) ++ ")"

/-- The path events produced by the external lyon polyline iterator,
modelled structurally: a begin marker, one line event per consecutive pair,
and an end marker. -/
inductive LyonEvent where
  | begin_ (at_ : Point2)
  | line (src dst : Point2)
  | end_ (last first : Point2) (close : Bool)
deriving DecidableEq, Repr

/-- Line events for consecutive pairs of a polyline. -/
def polyline_pairs : Point2 → List Point2 → List LyonEvent
  | _, [] => []
  | prev, p :: rest => LyonEvent.line prev p :: polyline_pairs p rest

/-- Modelled behavior of `lyon::path::iterator::FromPolyline::new`: it
yields a begin event at the first point, a line event per consecutive pair
(also when the two points are equal), and an end event. -/
def from_polyline (close : Bool) (points : List Point2) : List LyonEvent :=
  match points with
  | [] => []
  | p0 :: rest =>
      LyonEvent.begin_ p0
        :: (polyline_pairs p0 rest
            ++ [LyonEvent.end_ ((p0 :: rest).getLastD p0) p0 close])

/-- The subset of an `svg::node::element::Line` the source writes:
attributes are `none` until set. -/
structure SVGLine where
  stroke : Option String
  stroke_linecap : Option String
  stroke_width : Option Scalar
  x1 : Option Scalar
  y1 : Option Scalar
  x2 : Option Scalar
  y2 : Option Scalar
deriving DecidableEq, Repr

/-- A fresh SVG line element (`SVGLine::new`), with no attribute set. -/
def SVGLine.new : SVGLine :=
  { stroke := none, stroke_linecap := none, stroke_width := none,
    x1 := none, y1 := none, x2 := none, y2 := none }

/-- A line's SVG render capability (`Line::render_svg_element`).  The source
carries a commented-out TODO instead of the degenerate-case early return,
and calls `path.color.unwrap()`: the panic on a missing color is modelled as
`none`.  A line event always sets the endpoint attributes (negating y), with
both endpoints transformed by the replay transform composed with the
position/orientation transform. -/
def Line.render_svg_element (l : Line) (ctx : SvgRenderContext) :
    Option SVGLine :=
  match l.path.color with
  | none => none
  | some color =>
      some
        ((from_polyline false
            [l.start.getD { x := 0, y := 0 }, l.endp.getD { x := 0, y := 0 }]).foldl
          (fun el e =>
            match e with
            | LyonEvent.begin_ _ => el
            | LyonEvent.line src dst =>
                { el with
                    x1 := some ((ctx.transform
                      * (l.path.position.transform
                        * l.path.orientation.transform ctx.trig)).transform_point2
                          src).x
                    y1 := some (-((ctx.transform
                      * (l.path.position.transform
                        * l.path.orientation.transform ctx.trig)).transform_point2
                          src).y)
                    x2 := some ((ctx.transform
                      * (l.path.position.transform
                        * l.path.orientation.transform ctx.trig)).transform_point2
                          dst).x
                    y2 := some (-((ctx.transform
                      * (l.path.position.transform
                        * l.path.orientation.transform ctx.trig)).transform_point2
                          dst).y) }
            | LyonEvent.end_ _ _ _ => el)
          { SVGLine.new with
              stroke := some (color_string color)
              stroke_linecap :=
                some (match l.path.opts.start_cap with
                      | LineCap.Butt => "butt"
                      | LineCap.Square => "square"
                      | LineCap.Round => "round")
              stroke_width := some l.path.opts.line_width })

/-- The subset of an `svg::node::element::Rectangle` the source writes. -/
structure SVGRectangle where
  fill : Option String
  x : Option Scalar
  y : Option Scalar
  width : Option Scalar
  height : Option Scalar
  rotate_attr : Option Scalar
deriving DecidableEq, Repr

/-- A fresh SVG rectangle element with no attribute set. -/
def SVGRectangle.new : SVGRectangle :=
  { fill := none, x := none, y := none, width := none, height := none,
    rotate_attr := none }

/-- A rect's SVG render capability (`Rect::render_svg_element`).  The source
calls `polygon.opts.color.unwrap()`: the panic on a missing color is
modelled as `none`.  Look-at orientation is rendered as zero rotation (a
source TODO), and the rotate attribute stores the negated z angle (the
radian-to-degree scaling happens in the external math module). -/
def Rect.render_svg_element (r : Rect) (ctx : SvgRenderContext) :
    Option SVGRectangle :=
  match r.polygon.opts.color with
  | none => none
  | some color =>
      some
        { SVGRectangle.new with
            fill := some (color_string color)
            x := some (r.polygon.opts.position.point.x
              - (r.dimensions.x.getD 100) / 2)
            y := some (-(r.polygon.opts.position.point.y
              + (r.dimensions.y.getD 100) / 2))
            width := some (r.dimensions.x.getD 100)
            height := some (r.dimensions.y.getD 100)
            rotate_attr :=
              some (-(match r.polygon.opts.orientation with
                      | Orientation.Axes v => v.z
                      | Orientation.LookAt _ => 0)) }

/-- One command of an SVG path `d` attribute (`svg` crate path data). -/
inductive PathCmd where
  | move_to (x y : Scalar)
  | line_to (x y : Scalar)
  | close
deriving DecidableEq, Repr

/-- The subset of an `svg::node::element::Path` the source writes. -/
structure SVGPathEl where
  fill : Option String
  d : List PathCmd
  stroke_width : Option Scalar
  stroke : Option String
deriving DecidableEq, Repr

/-- A quad's SVG render capability (`Quad::render_svg_element`).  Unlike the
line and rect, the missing-color case falls back to the hard-coded
`palette::named::BLACK`; the d attribute walks the scaled, transformed
vertices, closing back to the first; stroke attributes are set only when the
corresponding option is present. -/
def Quad.render_svg_element (q : Quad) (ctx : SvgRenderContext) : SVGPathEl :=
  { fill := some (color_string (q.polygon.opts.color.getD black_lin_srgba))
    d :=
      [PathCmd.move_to
        ((ctx.transform
          * (q.polygon.opts.position.transform
            * q.polygon.opts.orientation.transform ctx.trig)).transform_point2
              (quad_scaled q.quad q.dimensions).a).x
        (-((ctx.transform
          * (q.polygon.opts.position.transform
            * q.polygon.opts.orientation.transform ctx.trig)).transform_point2
              (quad_scaled q.quad q.dimensions).a).y)]
      ++ [(quad_scaled q.quad q.dimensions).b,
          (quad_scaled q.quad q.dimensions).c,
          (quad_scaled q.quad q.dimensions).d].map
          (fun p =>
            PathCmd.line_to
              ((ctx.transform
                * (q.polygon.opts.position.transform
                  * q.polygon.opts.orientation.transform ctx.trig)).transform_point2
                    p).x
              (-((ctx.transform
                * (q.polygon.opts.position.transform
                  * q.polygon.opts.orientation.transform ctx.trig)).transform_point2
                    p).y))
      ++ [PathCmd.line_to
            ((ctx.transform
              * (q.polygon.opts.position.transform
                * q.polygon.opts.orientation.transform ctx.trig)).transform_point2
                  (quad_scaled q.quad q.dimensions).a).x
            (-((ctx.transform
              * (q.polygon.opts.position.transform
                * q.polygon.opts.orientation.transform ctx.trig)).transform_point2
                  (quad_scaled q.quad q.dimensions).a).y),
          PathCmd.close]
    stroke_width := q.polygon.opts.stroke.map (fun so => so.line_width)
    stroke := q.polygon.opts.stroke_color.map color_string }

-- Concrete render contexts and shapes for witnesses and counterexamples.

/-- A sample mesh render context: identity transform, default theme, and a
trigonometric interpretation that is exact at angle zero. -/
def demo_render_context : RenderContext :=
  { transform := Mat4.identity, theme := Theme.default,
    trig := fun _ => (1, 0) }

/-- A sample SVG render context. -/
def demo_svg_context : SvgRenderContext :=
  { transform := Mat4.identity, theme := Theme.default,
    trig := fun _ => (1, 0) }

/-- A default quad whose z dimension has been set. -/
def demo_quad_z : Quad :=
  { Quad.default with dimensions := { x := none, y := none, z := some 1 } }

/-- A default rect whose z dimension has been set. -/
def demo_rect_z : Rect :=
  { Rect.default with dimensions := { x := none, y := none, z := some 1 } }

-- Helper lemmas about `insert_draw_command` and the finalization fold.

theorem insert_draw_command_drawing (s : State) (i : ℕ) (p : Primitive) :
    (s.insert_draw_command i p).drawing = s.drawing := by
  unfold State.insert_draw_command
  split <;> rfl

theorem insert_draw_command_last (s : State) (i : ℕ) (p : Primitive) :
    (s.insert_draw_command i p).last_draw_context = s.last_draw_context := by
  unfold State.insert_draw_command
  split <;> rfl

theorem insert_draw_command_background (s : State) (i : ℕ) (p : Primitive) :
    (s.insert_draw_command i p).background_color = s.background_color := by
  unfold State.insert_draw_command
  split <;> rfl

theorem insert_draw_command_intermediary (s : State) (i : ℕ) (p : Primitive) :
    (s.insert_draw_command i p).intermediary_state = s.intermediary_state := by
  unfold State.insert_draw_command
  split <;> rfl

theorem insert_draw_command_theme (s : State) (i : ℕ) (p : Primitive) :
    (s.insert_draw_command i p).theme = s.theme := by
  unfold State.insert_draw_command
  split <;> rfl

theorem insert_draw_command_length (s : State) (i : ℕ) (p : Primitive) :
    (s.insert_draw_command i p).draw_commands.length = s.draw_commands.length := by
  unfold State.insert_draw_command
  split <;> simp

/-- All fields of the finalization fold other than `draw_commands` are those
of the initial accumulator, and the command-list length is preserved. -/
theorem foldl_insert_fields (l : List (ℕ × Primitive)) (t : State) :
    (l.foldl (fun acc ip => State.insert_draw_command acc ip.1 ip.2) t).drawing
        = t.drawing
    ∧ (l.foldl (fun acc ip => State.insert_draw_command acc ip.1 ip.2)
          t).last_draw_context = t.last_draw_context
    ∧ (l.foldl (fun acc ip => State.insert_draw_command acc ip.1 ip.2)
          t).background_color = t.background_color
    ∧ (l.foldl (fun acc ip => State.insert_draw_command acc ip.1 ip.2)
          t).intermediary_state = t.intermediary_state
    ∧ (l.foldl (fun acc ip => State.insert_draw_command acc ip.1 ip.2)
          t).theme = t.theme
    ∧ (l.foldl (fun acc ip => State.insert_draw_command acc ip.1 ip.2)
          t).draw_commands.length = t.draw_commands.length := by
  induction l generalizing t with
  | nil => simp
  | cons hd tl ih =>
      simp only [List.foldl_cons]
      refine ⟨?_, ?_, ?_, ?_, ?_, ?_⟩
      · rw [(ih _).1, insert_draw_command_drawing]
      · rw [(ih _).2.1, insert_draw_command_last]
      · rw [(ih _).2.2.1, insert_draw_command_background]
      · rw [(ih _).2.2.2.1, insert_draw_command_intermediary]
      · rw [(ih _).2.2.2.2.1, insert_draw_command_theme]
      · rw [(ih _).2.2.2.2.2, insert_draw_command_length]

theorem finish_remaining_drawing_nil (s : State) :
    (s.finish_remaining_drawings).drawing = [] := by
  unfold State.finish_remaining_drawings
  rw [(foldl_insert_fields _ _).1]

theorem finish_remaining_last (s : State) :
    (s.finish_remaining_drawings).last_draw_context = s.last_draw_context := by
  unfold State.finish_remaining_drawings
  rw [(foldl_insert_fields _ _).2.1]

theorem finish_remaining_background (s : State) :
    (s.finish_remaining_drawings).background_color = s.background_color := by
  unfold State.finish_remaining_drawings
  rw [(foldl_insert_fields _ _).2.2.1]

theorem finish_remaining_intermediary (s : State) :
    (s.finish_remaining_drawings).intermediary_state = s.intermediary_state := by
  unfold State.finish_remaining_drawings
  rw [(foldl_insert_fields _ _).2.2.2.1]

theorem finish_remaining_theme (s : State) :
    (s.finish_remaining_drawings).theme = s.theme := by
  unfold State.finish_remaining_drawings
  rw [(foldl_insert_fields _ _).2.2.2.2.1]

theorem finish_remaining_length (s : State) :
    (s.finish_remaining_drawings).draw_commands.length
      = s.draw_commands.length := by
  unfold State.finish_remaining_drawings
  rw [(foldl_insert_fields _ _).2.2.2.2.2]

theorem a_fst_last (s : State) (ctx : Context) (p : Primitive) :
    ((s.a ctx p).1).last_draw_context = some ctx := by
  unfold State.a
  by_cases h : s.last_draw_context = some ctx <;> simp [h]

theorem a_dc_of_last_eq (s : State) (ctx : Context) (p : Primitive)
    (h : s.last_draw_context = some ctx) :
    (s.a ctx p).1.draw_commands = s.draw_commands ++ [none] := by
  unfold State.a
  simp [h]

theorem a_dc_of_last_ne (s : State) (ctx : Context) (p : Primitive)
    (h : ¬s.last_draw_context = some ctx) :
    (s.a ctx p).1.draw_commands
      = s.draw_commands ++ [some (DrawCommand.Context ctx), none] := by
  unfold State.a
  simp [h]

/-- C1: a call to `a(primitive)` appends a ContextChange command (right
before the reserved `none` slot, updating `last_draw_context`) exactly when
the handle's context differs from `last_draw_context`; when the contexts
agree only the reserved slot is appended, and a second shape drawn with the
same context never appends a redundant ContextChange. -/
theorem a_emits_context_change_iff (s : State) (ctx : Context) (p : Primitive) :
    (if s.last_draw_context = some ctx then
        (s.a ctx p).1.draw_commands = s.draw_commands ++ [none]
          ∧ (s.a ctx p).1.last_draw_context = s.last_draw_context
      else
        (s.a ctx p).1.draw_commands
            = s.draw_commands ++ [some (DrawCommand.Context ctx), none]
          ∧ (s.a ctx p).1.last_draw_context = some ctx)
    ∧ ∀ q : Primitive,
        (((s.a ctx p).1).a ctx q).1.draw_commands
          = (s.a ctx p).1.draw_commands ++ [none] := by
  constructor
  · by_cases h : s.last_draw_context = some ctx
    · simp only [if_pos h]
      refine ⟨a_dc_of_last_eq s ctx p h, ?_⟩
      rw [a_fst_last s ctx p, h]
    · simp only [if_neg h]
      exact ⟨a_dc_of_last_ne s ctx p h, a_fst_last s ctx p⟩
  · intro q
    exact a_dc_of_last_eq _ ctx q (a_fst_last s ctx p)

theorem finish_remaining_of_drawing_nil (s : State) (h : s.drawing = []) :
    s.finish_remaining_drawings.draw_commands = s.draw_commands := by
  unfold State.finish_remaining_drawings
  rw [h]
  rfl

/-- C4: draining twice in a row yields the empty sequence the second time:
the first drain swaps the command list for an empty one and leaves no
pending drawings, so the second drain has nothing to yield. -/
theorem drain_drain_empty (s : State) :
    ((s.drain_commands.1).drain_commands).2 = []
    ∧ ((s.drain_commands.1).drain_commands).1.draw_commands = [] := by
  have hnil : (s.drain_commands.1).drawing = [] :=
    finish_remaining_drawing_nil s
  have hdc : (s.drain_commands.1).draw_commands = [] := rfl
  refine ⟨?_, rfl⟩
  calc ((s.drain_commands.1).drain_commands).2
      = ((s.drain_commands.1).finish_remaining_drawings.draw_commands).filterMap
          id := rfl
    _ = ((s.drain_commands.1).draw_commands).filterMap id := by
          rw [finish_remaining_of_drawing_nil _ hnil]
    _ = [] := by rw [hdc]; rfl

-- Association-list lemmas for the pending-primitive map.

theorem mapLookup_mapErase (k j : ℕ) (l : List (ℕ × Primitive)) :
    mapLookup j (mapErase k l) = if j = k then none else mapLookup j l := by
  induction l with
  | nil => simp [mapErase, mapLookup]
  | cons hd tl ih =>
      by_cases hk : hd.1 = k
      · have h1 : mapErase k (hd :: tl) = mapErase k tl := by
          simp [mapErase, List.filter_cons, hk]
        rw [h1, ih]
        by_cases hj : j = k
        · simp [hj]
        · have : ¬hd.1 = j := by rw [hk]; exact fun h => hj h.symm
          simp [hj, mapLookup, this]
      · have h1 : mapErase k (hd :: tl) = hd :: mapErase k tl := by
          simp [mapErase, List.filter_cons, hk]
        rw [h1]
        by_cases hj : hd.1 = j
        · have hjk : ¬j = k := by rw [← hj]; exact fun h => hk h
          simp [mapLookup, hj, hjk]
        · simp only [mapLookup, if_neg hj, ih]

theorem mapLookup_mapInsert (k j : ℕ) (v : Primitive)
    (l : List (ℕ × Primitive)) :
    mapLookup j (mapInsert k v l) = if j = k then some v else mapLookup j l := by
  by_cases hj : j = k
  · simp [mapInsert, mapLookup, hj]
  · have : ¬k = j := fun h => hj h.symm
    simp only [mapInsert, mapLookup, if_neg this, if_neg hj,
      mapLookup_mapErase, hj]
    simp [hj]

theorem mapLookup_eq_none_of_not_mem_keys (k : ℕ)
    (l : List (ℕ × Primitive)) (h : k ∉ l.map Prod.fst) :
    mapLookup k l = none := by
  induction l with
  | nil => rfl
  | cons hd tl ih =>
      simp only [List.map_cons, List.mem_cons] at h
      push_neg at h
      have : ¬hd.1 = k := fun hh => h.1 hh.symm
      simp only [mapLookup, if_neg this]
      exact ih h.2

theorem mem_keys_of_mapLookup_isSome (k : ℕ) (p : Primitive)
    (l : List (ℕ × Primitive)) (h : mapLookup k l = some p) :
    k ∈ l.map Prod.fst := by
  induction l with
  | nil => simp [mapLookup] at h
  | cons hd tl ih =>
      by_cases hk : hd.1 = k
      · simp [List.map_cons, hk]
      · simp only [mapLookup, if_neg hk] at h
        simp [List.map_cons, ih h]

theorem not_mem_keys_mapErase (k : ℕ) (l : List (ℕ × Primitive)) :
    k ∉ (mapErase k l).map Prod.fst := by
  intro hmem
  simp only [mapErase, List.mem_map] at hmem
  obtain ⟨kv, hkv, hfst⟩ := hmem
  rw [List.mem_filter] at hkv
  have hne : kv.1 ≠ k := by simpa using hkv.2
  exact hne hfst

theorem nodup_keys_mapErase (k : ℕ) (l : List (ℕ × Primitive))
    (h : (l.map Prod.fst).Nodup) : ((mapErase k l).map Prod.fst).Nodup :=
  List.Nodup.sublist (List.Sublist.map Prod.fst (List.filter_sublist l)) h

theorem nodup_keys_mapInsert (k : ℕ) (v : Primitive)
    (l : List (ℕ × Primitive)) (h : (l.map Prod.fst).Nodup) :
    ((mapInsert k v l).map Prod.fst).Nodup := by
  simp only [mapInsert, List.map_cons]
  exact List.Nodup.cons (not_mem_keys_mapErase k l) (nodup_keys_mapErase k l h)

theorem keys_map_replace (index : ℕ) (f : Primitive → Primitive)
    (l : List (ℕ × Primitive)) :
    ((l.map (fun kv => if kv.1 = index then (kv.1, f kv.2) else kv)).map
        Prod.fst) = l.map Prod.fst := by
  induction l with
  | nil => rfl
  | cons hd tl ih =>
      simp only [List.map_cons, ih]
      split <;> rfl

theorem mapLookup_map_replace (index j : ℕ) (f : Primitive → Primitive)
    (l : List (ℕ × Primitive)) :
    mapLookup j (l.map (fun kv => if kv.1 = index then (kv.1, f kv.2) else kv))
      = if j = index then (mapLookup j l).map f else mapLookup j l := by
  induction l with
  | nil => simp [mapLookup]
  | cons hd tl ih =>
      by_cases hi : hd.1 = index
      · by_cases hj : hd.1 = j
        · have hji : j = index := by rw [← hj, hi]
          simp [mapLookup, hi, hj, hji]
        · simp only [List.map_cons, if_pos hi, mapLookup, if_neg hj, ih]
      · by_cases hj : hd.1 = j
        · have hji : ¬j = index := by rw [← hj]; exact hi
          simp [mapLookup, hi, hj, hji]
        · simp only [List.map_cons, if_neg hi, mapLookup, if_neg hj, ih]

-- Indexing helpers.

theorem getq_concat {α : Type} (l : List α) (x : α) (i : ℕ) :
    (l ++ [x])[i]? =
      if i < l.length then l[i]?
      else if i = l.length then some x else none := by
  rcases Nat.lt_trichotomy i l.length with h | h | h
  · rw [List.getElem?_append_left h, if_pos h]
  · subst h
    simp [List.getElem?_concat_length]
  · rw [if_neg (Nat.lt_asymm h), if_neg (Nat.ne_of_gt h),
      List.getElem?_append_right (Nat.le_of_lt h)]
    apply List.getElem?_eq_none
    simpa using Nat.le_sub_of_add_le (by omega)

theorem lt_of_getq_some {α : Type} {l : List α} {i : ℕ} {x : α}
    (h : l[i]? = some x) : i < l.length := by
  rcases List.getElem?_eq_some_iff.mp h with ⟨hlt, _⟩
  exact hlt

theorem mem_of_getq_some {α : Type} {l : List α} {i : ℕ} {x : α}
    (h : l[i]? = some x) : x ∈ l :=
  List.mem_iff_getElem?.mpr ⟨i, h⟩

theorem filterMap_id_length_of_all_isSome {α : Type}
    (l : List (Option α)) (h : ∀ o ∈ l, o.isSome) :
    (l.filterMap id).length = l.length := by
  induction l with
  | nil => rfl
  | cons hd tl ih =>
      have hhd := h hd (by simp)
      obtain ⟨x, rfl⟩ := Option.isSome_iff_exists.mp hhd
      simp only [List.filterMap_cons, id, List.length_cons]
      rw [ih (fun o ho => h o (List.mem_cons_of_mem (some x) ho))]

-- Characterization of the finalization fold.

theorem insert_draw_command_getq_self (t : State) (i : ℕ) (p : Primitive)
    (h : i < t.draw_commands.length) :
    (t.insert_draw_command i p).draw_commands[i]?
      = some (some (DrawCommand.Primitive p)) := by
  unfold State.insert_draw_command
  rw [if_pos h]
  exact List.getElem?_set_self (by simpa using h)

theorem insert_draw_command_getq_ne (t : State) (i j : ℕ) (p : Primitive)
    (h : i ≠ j) :
    (t.insert_draw_command i p).draw_commands[j]? = t.draw_commands[j]? := by
  unfold State.insert_draw_command
  split
  · exact List.getElem?_set_ne h
  · rfl

theorem insert_draw_command_oob (t : State) (i : ℕ) (p : Primitive)
    (h : ¬i < t.draw_commands.length) : t.insert_draw_command i p = t := by
  unfold State.insert_draw_command
  rw [if_neg h]

theorem foldl_insert_getElem (l : List (ℕ × Primitive)) (t : State)
    (hnd : (l.map Prod.fst).Nodup) (j : ℕ) :
    (l.foldl (fun acc ip => State.insert_draw_command acc ip.1 ip.2)
        t).draw_commands[j]? =
      match mapLookup j l with
      | some p =>
          if j < t.draw_commands.length
          then some (some (DrawCommand.Primitive p)) else none
      | none => t.draw_commands[j]? := by
  induction l generalizing t with
  | nil => simp [mapLookup]
  | cons hd tl ih =>
      obtain ⟨k, p⟩ := hd
      simp only [List.map_cons, List.nodup_cons] at hnd
      obtain ⟨hk, hnd'⟩ := hnd
      have hklook : mapLookup k tl = none :=
        mapLookup_eq_none_of_not_mem_keys k tl hk
      simp only [List.foldl_cons]
      rw [ih _ hnd']
      by_cases hj : j = k
      · subst hj
        have hm : mapLookup j ((j, p) :: tl) = some p := by simp [mapLookup]
        rw [hklook, hm]
        by_cases hlt : j < t.draw_commands.length
        · show (State.insert_draw_command t j p).draw_commands[j]?
              = if j < t.draw_commands.length
                then some (some (DrawCommand.Primitive p)) else none
          rw [insert_draw_command_getq_self t j p hlt, if_pos hlt]
        · show (State.insert_draw_command t j p).draw_commands[j]?
              = if j < t.draw_commands.length
                then some (some (DrawCommand.Primitive p)) else none
          rw [insert_draw_command_oob t j p hlt, if_neg hlt]
          apply List.getElem?_eq_none
          omega
      · have hm2 : mapLookup j ((k, p) :: tl) = mapLookup j tl := by
          simp only [mapLookup]
          rw [if_neg (fun h => hj h.symm)]
        rw [hm2]
        cases hcase : mapLookup j tl with
        | some q =>
            show (if j < (State.insert_draw_command t k p).draw_commands.length
                  then some (some (DrawCommand.Primitive q)) else none)
              = if j < t.draw_commands.length
                then some (some (DrawCommand.Primitive q)) else none
            rw [insert_draw_command_length]
        | none =>
            show (State.insert_draw_command t k p).draw_commands[j]?
              = t.draw_commands[j]?
            exact insert_draw_command_getq_ne t k j p (fun h => hj h.symm)

-- The sparse-slot invariant relating the pending map and the command list.

theorem invP_nil_nil : InvP [] [] := by
  refine ⟨List.nodup_nil, ?_, ?_⟩
  · intro i p h
    simp [mapLookup] at h
  · intro i h
    simp at h

theorem invP_append_some (dw : List (ℕ × Primitive))
    (dc : List (Option DrawCommand)) (c : DrawCommand) (h : InvP dw dc) :
    InvP dw (dc ++ [some c]) := by
  obtain ⟨hnd, hpend, hholes⟩ := h
  refine ⟨hnd, ?_, ?_⟩
  · intro i p hp
    have h1 := hpend i p hp
    rw [List.getElem?_append_left (lt_of_getq_some h1)]
    exact h1
  · intro i hi
    rw [getq_concat] at hi
    by_cases hlt : i < dc.length
    · rw [if_pos hlt] at hi
      exact hholes i hi
    · rw [if_neg hlt] at hi
      by_cases heq : i = dc.length
      · rw [if_pos heq] at hi
        simp at hi
      · rw [if_neg heq] at hi
        simp at hi

theorem invP_push_pending (dw : List (ℕ × Primitive))
    (dc : List (Option DrawCommand)) (p : Primitive) (h : InvP dw dc) :
    InvP (mapInsert dc.length p dw) (dc ++ [none]) := by
  obtain ⟨hnd, hpend, hholes⟩ := h
  have hkeybound : ∀ i q, mapLookup i dw = some q → i < dc.length := by
    intro i q hq
    exact lt_of_getq_some (hpend i q hq)
  refine ⟨nodup_keys_mapInsert _ p dw hnd, ?_, ?_⟩
  · intro i q hq
    rw [mapLookup_mapInsert] at hq
    by_cases hi : i = dc.length
    · subst hi
      rw [getq_concat, if_neg (lt_irrefl _), if_pos rfl]
    · rw [if_neg hi] at hq
      have hlt := hkeybound i q hq
      rw [List.getElem?_append_left hlt]
      exact hpend i q hq
  · intro i hi
    rw [getq_concat] at hi
    by_cases hlt : i < dc.length
    · rw [if_pos hlt] at hi
      obtain ⟨q, hq⟩ := hholes i hi
      refine ⟨q, ?_⟩
      rw [mapLookup_mapInsert, if_neg (by omega)]
      exact hq
    · rw [if_neg hlt] at hi
      by_cases heq : i = dc.length
      · subst heq
        exact ⟨p, by rw [mapLookup_mapInsert, if_pos rfl]⟩
      · rw [if_neg heq] at hi
        simp at hi

theorem invP_finalize (dw : List (ℕ × Primitive))
    (dc : List (Option DrawCommand)) (i : ℕ) (prim : Primitive)
    (h : InvP dw dc) (hc : mapLookup i dw = some prim)
    (hlt : i < dc.length) :
    InvP (mapErase i dw) (dc.set i (some (DrawCommand.Primitive prim))) := by
  obtain ⟨hnd, hpend, hholes⟩ := h
  refine ⟨nodup_keys_mapErase i dw hnd, ?_, ?_⟩
  · intro j q hq
    rw [mapLookup_mapErase] at hq
    by_cases hji : j = i
    · rw [if_pos hji] at hq
      exact absurd hq (by simp)
    · rw [if_neg hji] at hq
      rw [List.getElem?_set_ne (fun hh => hji hh.symm)]
      exact hpend j q hq
  · intro j hj
    by_cases hji : j = i
    · subst hji
      rw [List.getElem?_set_self (by simpa using hlt)] at hj
      simp at hj
    · rw [List.getElem?_set_ne (fun hh => hji hh.symm)] at hj
      obtain ⟨q, hq⟩ := hholes j hj
      refine ⟨q, ?_⟩
      rw [mapLookup_mapErase, if_neg hji]
      exact hq

-- Shapes of the state after `a` in each branch of the context check.

theorem a_fst_eq (s : State) (ctx : Context) (p : Primitive)
    (hc : s.last_draw_context = some ctx) :
    (s.a ctx p).1 = { s with
      draw_commands := s.draw_commands ++ [none]
      drawing := mapInsert s.draw_commands.length p s.drawing } := by
  unfold State.a
  rw [if_pos hc]

theorem a_fst_ne (s : State) (ctx : Context) (p : Primitive)
    (hc : ¬s.last_draw_context = some ctx) :
    (s.a ctx p).1 = { s with
      draw_commands :=
        (s.draw_commands ++ [some (DrawCommand.Context ctx)]) ++ [none]
      last_draw_context := some ctx
      drawing :=
        mapInsert (s.draw_commands ++ [some (DrawCommand.Context ctx)]).length
          p s.drawing } := by
  unfold State.a
  rw [if_neg hc]

theorem invP_finish_remaining (s : State) (h : s.Inv) :
    (s.finish_remaining_drawings).Inv := by
  obtain ⟨hnd, hpend, hholes⟩ := h
  unfold State.Inv
  rw [finish_remaining_drawing_nil]
  refine ⟨List.nodup_nil, ?_, ?_⟩
  · intro i p hp
    simp [mapLookup] at hp
  · intro i hi
    exfalso
    have hchar := foldl_insert_getElem s.drawing { s with drawing := [] } hnd i
    rw [show (s.finish_remaining_drawings).draw_commands
        = (s.drawing.foldl (fun acc ip => State.insert_draw_command acc ip.1 ip.2)
            { s with drawing := [] }).draw_commands from rfl] at hi
    cases hcase : mapLookup i s.drawing with
    | some p =>
        have hval : (s.drawing.foldl
              (fun acc ip => State.insert_draw_command acc ip.1 ip.2)
              { s with drawing := [] }).draw_commands[i]?
            = if i < s.draw_commands.length
              then some (some (DrawCommand.Primitive p)) else none := by
          rw [hchar, hcase]
        rw [hval] at hi
        by_cases hlt : i < s.draw_commands.length
        · rw [if_pos hlt] at hi
          simp at hi
        · rw [if_neg hlt] at hi
          simp at hi
    | none =>
        have hval : (s.drawing.foldl
              (fun acc ip => State.insert_draw_command acc ip.1 ip.2)
              { s with drawing := [] }).draw_commands[i]?
            = s.draw_commands[i]? := by
          rw [hchar, hcase]
        rw [hval] at hi
        obtain ⟨p, hp⟩ := hholes i hi
        rw [hcase] at hp
        exact Option.noConfusion hp

theorem inv_applyOp (s : State) (op : Op) (h : s.Inv) :
    (s.applyOp op).Inv := by
  obtain ⟨hnd, hpend, hholes⟩ := h
  cases op with
  | a ctx p =>
      show ((s.a ctx p).1).Inv
      by_cases hc : s.last_draw_context = some ctx
      · rw [a_fst_eq s ctx p hc]
        exact invP_push_pending s.drawing s.draw_commands p ⟨hnd, hpend, hholes⟩
      · rw [a_fst_ne s ctx p hc]
        exact invP_push_pending s.drawing _ p
          (invP_append_some s.drawing s.draw_commands _ ⟨hnd, hpend, hholes⟩)
  | finishDrawing index =>
      show (s.finish_drawing index).Inv
      cases hcase : mapLookup index s.drawing with
      | none =>
          unfold State.finish_drawing
          rw [hcase]
          exact ⟨hnd, hpend, hholes⟩
      | some prim =>
          unfold State.finish_drawing
          rw [hcase]
          show (({ s with drawing := mapErase index s.drawing
              } : State).insert_draw_command index prim).Inv
          have hlt : index < s.draw_commands.length :=
            lt_of_getq_some (hpend index prim hcase)
          have hins :
              ({ s with drawing := mapErase index s.drawing
                 } : State).insert_draw_command index prim
              = { s with
                  drawing := mapErase index s.drawing
                  draw_commands :=
                    s.draw_commands.set index
                      (some (DrawCommand.Primitive prim)) } := by
            unfold State.insert_draw_command
            rw [if_pos (by simpa using hlt)]
          rw [hins]
          exact invP_finalize s.drawing s.draw_commands index prim
            ⟨hnd, hpend, hholes⟩ hcase hlt
  | finishRemaining =>
      exact invP_finish_remaining s ⟨hnd, hpend, hholes⟩
  | drain =>
      show (s.drain_commands.1).Inv
      have hdw : (s.drain_commands.1).drawing = [] :=
        finish_remaining_drawing_nil s
      have hdc : (s.drain_commands.1).draw_commands = [] := rfl
      unfold State.Inv
      rw [hdw, hdc]
      exact invP_nil_nil
  | reset =>
      exact invP_nil_nil
  | background color =>
      exact ⟨hnd, hpend, hholes⟩
  | mutatePrim index f =>
      refine ⟨?_, ?_, ?_⟩
      · show ((s.drawing.map
            (fun kv => if kv.1 = index then (kv.1, f kv.2) else kv)).map
              Prod.fst).Nodup
        rw [keys_map_replace]
        exact hnd
      · intro j q hq
        rw [show (s.applyOp (Op.mutatePrim index f)).drawing
            = s.drawing.map
                (fun kv => if kv.1 = index then (kv.1, f kv.2) else kv)
            from rfl, mapLookup_map_replace] at hq
        by_cases hji : j = index
        · rw [if_pos hji] at hq
          cases horig : mapLookup j s.drawing with
          | none => rw [horig] at hq; simp at hq
          | some q0 => exact hpend j q0 horig
        · rw [if_neg hji] at hq
          exact hpend j q hq
      · intro j hj
        have hj' : s.draw_commands[j]? = some none := hj
        obtain ⟨q, hq⟩ := hholes j hj'
        rw [show (s.applyOp (Op.mutatePrim index f)).drawing
            = s.drawing.map
                (fun kv => if kv.1 = index then (kv.1, f kv.2) else kv)
            from rfl]
        rw [mapLookup_map_replace]
        by_cases hji : j = index
        · rw [if_pos hji, hq]
          exact ⟨f q, rfl⟩
        · rw [if_neg hji]
          exact ⟨q, hq⟩

theorem inv_runFrom (s : State) (ops : List Op) (h : s.Inv) :
    (State.runFrom s ops).Inv := by
  induction ops generalizing s with
  | nil => exact h
  | cons op tl ih => exact ih _ (inv_applyOp s op h)

theorem inv_run (ops : List Op) : (State.run ops).Inv :=
  inv_runFrom State.default ops invP_nil_nil

theorem finish_remaining_getq (s : State)
    (hnd : (s.drawing.map Prod.fst).Nodup) (j : ℕ) :
    (s.finish_remaining_drawings).draw_commands[j]? =
      match mapLookup j s.drawing with
      | some p =>
          if j < s.draw_commands.length
          then some (some (DrawCommand.Primitive p)) else none
      | none => s.draw_commands[j]? := by
  unfold State.finish_remaining_drawings
  exact foldl_insert_getElem s.drawing { s with drawing := [] } hnd j

theorem finish_remaining_all_isSome (s : State) (h : s.Inv) :
    ∀ o ∈ (s.finish_remaining_drawings).draw_commands, o.isSome := by
  obtain ⟨hnd, hpend, hholes⟩ := h
  intro o ho
  obtain ⟨j, hj⟩ := List.getElem?_of_mem ho
  cases hcase : mapLookup j s.drawing with
  | some p =>
      have hval : (s.finish_remaining_drawings).draw_commands[j]?
          = if j < s.draw_commands.length
            then some (some (DrawCommand.Primitive p)) else none := by
        rw [finish_remaining_getq s hnd j, hcase]
      rw [hval] at hj
      by_cases hlt : j < s.draw_commands.length
      · rw [if_pos hlt] at hj
        have h2 := Option.some.inj hj
        rw [← h2]
        rfl
      · rw [if_neg hlt] at hj
        exact absurd hj (by simp)
  | none =>
      have hval : (s.finish_remaining_drawings).draw_commands[j]?
          = s.draw_commands[j]? := by
        rw [finish_remaining_getq s hnd j, hcase]
      rw [hval] at hj
      cases o with
      | some c => rfl
      | none =>
          obtain ⟨p, hp⟩ := hholes j hj
          rw [hcase] at hp
          exact Option.noConfusion hp

theorem drain_snd_eq (s : State) :
    s.drain_commands.2
      = (s.finish_remaining_drawings).draw_commands.filterMap id := rfl

/-- C2: for every reachable shared state, `drain_commands` yields exactly one
command per reserved slot (no `none` hole survives), every pending primitive
is finalized into the drained sequence with its current configuration, and
every already-finalized command is also present — no started shape is
dropped. -/
theorem drain_no_dropped_shapes (ops : List Op) :
    ((State.run ops).drain_commands.2).length
        = (State.run ops).draw_commands.length
    ∧ (∀ i p, mapLookup i (State.run ops).drawing = some p →
        DrawCommand.Primitive p ∈ (State.run ops).drain_commands.2)
    ∧ (∀ (i : ℕ) (c : DrawCommand),
        (State.run ops).draw_commands[i]? = some (some c) →
        c ∈ (State.run ops).drain_commands.2) := by
  obtain ⟨hnd, hpend, hholes⟩ := inv_run ops
  have hall := finish_remaining_all_isSome (State.run ops) ⟨hnd, hpend, hholes⟩
  refine ⟨?_, ?_, ?_⟩
  · rw [drain_snd_eq, filterMap_id_length_of_all_isSome _ hall,
      finish_remaining_length]
  · intro i p hp
    have hlt : i < (State.run ops).draw_commands.length :=
      lt_of_getq_some (hpend i p hp)
    have hval : (State.run ops).finish_remaining_drawings.draw_commands[i]?
        = some (some (DrawCommand.Primitive p)) := by
      rw [finish_remaining_getq _ hnd i, hp]
      show (if i < (State.run ops).draw_commands.length
            then some (some (DrawCommand.Primitive p)) else none)
          = some (some (DrawCommand.Primitive p))
      rw [if_pos hlt]
    rw [drain_snd_eq]
    exact List.mem_filterMap.mpr
      ⟨some (DrawCommand.Primitive p), mem_of_getq_some hval, rfl⟩
  · intro i c hc
    have hnone : mapLookup i (State.run ops).drawing = none := by
      cases hcase : mapLookup i (State.run ops).drawing with
      | none => rfl
      | some p =>
          have hcontra := hpend i p hcase
          rw [hc] at hcontra
          exact Option.noConfusion (Option.some.inj hcontra)
    have hval : (State.run ops).finish_remaining_drawings.draw_commands[i]?
        = some (some c) := by
      rw [finish_remaining_getq _ hnd i, hnone, hc]
    rw [drain_snd_eq]
    exact List.mem_filterMap.mpr ⟨some c, mem_of_getq_some hval, rfl⟩

/-- Witness for C2 at a concrete input: after starting one line through the
default context, the drained sequence keeps one command per slot and
contains the pending line. -/
theorem drain_no_dropped_shapes_witness :
    (State.run demo_ops).drain_commands.2.length
        = (State.run demo_ops).draw_commands.length
    ∧ DrawCommand.Primitive demo_primitive ∈ (State.run demo_ops).drain_commands.2 :=
  ⟨(drain_no_dropped_shapes demo_ops).1,
   (drain_no_dropped_shapes demo_ops).2.1 1 demo_primitive (by decide)⟩

/-- C3: scissor composition on a handle: from `Full`, `scissor(A)` yields
`Rect(A)`; on a handle whose scissor is `Rect(R)`, `scissor(B)` yields the
intersection when the rectangles overlap and `NoOverlap` otherwise; on a
handle whose scissor is `NoOverlap`, every further `scissor(C)` stays
`NoOverlap`. -/
theorem scissor_composition (d : Draw) (A B C R : GeomRect) :
    ((d.with_context { d.context with
        scissor := Scissor.Full }).scissor A).context.scissor
      = Scissor.Rect A
    ∧ ((d.with_context { d.context with
          scissor := Scissor.Rect R }).scissor B).context.scissor
        = (if max R.x_start B.x_start ≤ min R.x_end B.x_end
              ∧ max R.y_start B.y_start ≤ min R.y_end B.y_end
           then Scissor.Rect
                  { x_start := max R.x_start B.x_start
                    x_end := min R.x_end B.x_end
                    y_start := max R.y_start B.y_start
                    y_end := min R.y_end B.y_end }
           else Scissor.NoOverlap)
    ∧ ((d.with_context { d.context with
          scissor := Scissor.NoOverlap }).scissor C).context.scissor
        = Scissor.NoOverlap := by
  refine ⟨rfl, ?_, rfl⟩
  by_cases h : max R.x_start B.x_start ≤ min R.x_end B.x_end
      ∧ max R.y_start B.y_start ≤ min R.y_end B.y_end
  · rw [if_pos h]
    show (match R.overlap B with
          | some o => Scissor.Rect o
          | none => Scissor.NoOverlap)
        = Scissor.Rect
            { x_start := max R.x_start B.x_start
              x_end := min R.x_end B.x_end
              y_start := max R.y_start B.y_start
              y_end := min R.y_end B.y_end }
    unfold GeomRect.overlap
    rw [if_pos h]
  · rw [if_neg h]
    show (match R.overlap B with
          | some o => Scissor.Rect o
          | none => Scissor.NoOverlap)
        = Scissor.NoOverlap
    unfold GeomRect.overlap
    rw [if_neg h]

/-- C7: every context-mutating operation returns a brand-new handle whose
state component is identical to the input handle's — in this pure embedding
the only way the shared state could differ is for the operation to return a
changed value, and none does — while the context is the prescribed
functional update (spelled out for `transform` and `sampler`).  The handle
the operation was called on is a value and is untouched by construction. -/
theorem context_ops_return_new_handle (d : Draw) (m : Mat4) (v : Vector3)
    (sc : Scalar) (trig : Scalar → Scalar × Scalar) (θ : Scalar)
    (bd : BlendDescriptor) (r : GeomRect) (sd : SamplerDescriptor) :
    (d.transform m).state = d.state
    ∧ (d.transform m).context
        = { d.context with transform := d.context.transform * m }
    ∧ (d.translate v).state = d.state
    ∧ (d.scale_axes v).state = d.state
    ∧ (d.scale sc).state = d.state
    ∧ (d.euler trig v).state = d.state
    ∧ (d.rotate trig θ).state = d.state
    ∧ (d.alpha_blend bd).state = d.state
    ∧ (d.color_blend bd).state = d.state
    ∧ (d.blend bd).state = d.state
    ∧ (d.scissor r).state = d.state
    ∧ (d.line_mode).state = d.state
    ∧ (d.point_mode).state = d.state
    ∧ (d.triangle_mode).state = d.state
    ∧ (d.sampler sd).state = d.state
    ∧ (d.sampler sd).context = { d.context with sampler := sd } :=
  ⟨rfl, rfl, rfl, rfl, rfl, rfl, rfl, rfl, rfl, rfl, rfl, rfl, rfl, rfl,
   rfl, rfl⟩

-- Theme is never modified by any operation.

theorem applyOp_theme (s : State) (op : Op) : (s.applyOp op).theme = s.theme := by
  cases op with
  | a ctx p =>
      show ((s.a ctx p).1).theme = s.theme
      by_cases hc : s.last_draw_context = some ctx
      · rw [a_fst_eq s ctx p hc]
      · rw [a_fst_ne s ctx p hc]
  | finishDrawing index =>
      show (s.finish_drawing index).theme = s.theme
      unfold State.finish_drawing
      cases hcase : mapLookup index s.drawing with
      | none => rfl
      | some prim =>
          show (({ s with drawing := mapErase index s.drawing
              } : State).insert_draw_command index prim).theme = s.theme
          rw [insert_draw_command_theme]
  | finishRemaining => exact finish_remaining_theme s
  | drain => exact finish_remaining_theme s
  | reset => rfl
  | background color => rfl
  | mutatePrim index f => rfl

theorem runFrom_theme (s : State) (ops : List Op) :
    (State.runFrom s ops).theme = s.theme := by
  induction ops generalizing s with
  | nil => rfl
  | cons op tl ih =>
      show (State.runFrom (s.applyOp op) tl).theme = s.theme
      rw [ih (s.applyOp op), applyOp_theme]

theorem reset_eq_default_of_theme (s : State) (h : s.theme = Theme.default) :
    s.reset = State.default := by
  have hr : s.reset = { State.default with theme := s.theme } := rfl
  rw [hr, h]
  rfl

/-- C8: resetting a reachable shared state yields exactly the freshly
created state — background cleared, `last_draw_context` cleared, command
list and pending map empty, scratch buffers cleared — so that any further
operation sequence behaves identically to running it on a fresh state. -/
theorem reset_observationally_fresh (ops tail : List Op) :
    (State.run ops).reset = State.default
    ∧ State.runFrom ((State.run ops).reset) tail = State.run tail := by
  have ht : (State.run ops).theme = Theme.default := by
    unfold State.run
    rw [runFrom_theme]
    rfl
  have h1 : (State.run ops).reset = State.default :=
    reset_eq_default_of_theme _ ht
  refine ⟨h1, ?_⟩
  rw [h1]
  rfl

/-- C10: draining does not reset `last_draw_context`; consequently a shape
started right after a drain with the very context last recorded before the
drain reserves its slot without any preceding ContextChange, and the next
drained batch starts with a bare Primitive command. -/
theorem drain_preserves_last_draw_context (s : State) (ctx : Context)
    (p : Primitive) :
    (s.drain_commands.1).last_draw_context = s.last_draw_context
    ∧ (s.last_draw_context = some ctx →
        ((s.drain_commands.1).a ctx p).1.draw_commands = [none]
        ∧ (((s.drain_commands.1).a ctx p).1.drain_commands).2
            = [DrawCommand.Primitive p]) := by
  have hlast : (s.drain_commands.1).last_draw_context = s.last_draw_context :=
    finish_remaining_last s
  refine ⟨hlast, ?_⟩
  intro h
  have hc : (s.drain_commands.1).last_draw_context = some ctx := by
    rw [hlast, h]
  have hdc : (s.drain_commands.1).draw_commands = [] := rfl
  have hdw : (s.drain_commands.1).drawing = [] :=
    finish_remaining_drawing_nil s
  have ha := a_fst_eq (s.drain_commands.1) ctx p hc
  rw [hdc, hdw] at ha
  rw [ha]
  exact ⟨rfl, rfl⟩

/-- Witness for C10 at a concrete input: with one line drawn under the
default context and the buffer drained, re-drawing with the same context
yields only the reserved slot and the next drain starts with the bare
Primitive command. -/
theorem drain_preserves_last_draw_context_witness :
    ((demo_state.drain_commands.1).a demo_context demo_primitive).1.draw_commands
        = [none]
    ∧ (((demo_state.drain_commands.1).a demo_context
          demo_primitive).1.drain_commands).2
        = [DrawCommand.Primitive demo_primitive] :=
  (drain_preserves_last_draw_context demo_state demo_context
    demo_primitive).2 (by decide)

/-- C5 counterexample: for the degenerate default line (start and end both
defaulting to the origin, color never set) the SVG render capability panics
on the missing color (modelled `none`) instead of contributing an empty
element — the degenerate-case early return exists only as a TODO comment in
`Line::render_svg_element`. -/
theorem line_degenerate_svg_errors :
    Line.default.render_svg_element demo_svg_context = none := rfl

/-- C5 (amended): for a line whose start equals its end, rendering into a
mesh leaves the mesh untouched; the SVG backend however has no degenerate
special case: with no color configured it panics (modelled `none`), and with
a color it emits a line element whose endpoint attributes are set rather
than an empty element. -/
theorem line_degenerate_render (l : Line) (ctxt : RenderContext)
    (mesh : Mesh) (ctx : SvgRenderContext)
    (h : l.start.getD { x := 0, y := 0 } = l.endp.getD { x := 0, y := 0 }) :
    l.render_primitive ctxt mesh = (mesh, PrimitiveRender.default)
    ∧ (l.path.color = none → l.render_svg_element ctx = none)
    ∧ (∀ c : LinSrgba, l.path.color = some c →
        ∃ el : SVGLine, l.render_svg_element ctx = some el
          ∧ el.x1.isSome = true ∧ el.y1.isSome = true
          ∧ el.x2.isSome = true ∧ el.y2.isSome = true) := by
  refine ⟨?_, ?_, ?_⟩
  · unfold Line.render_primitive
    rw [if_pos h]
  · intro hc
    unfold Line.render_svg_element
    rw [hc]
  · intro c hc
    unfold Line.render_svg_element
    rw [hc]
    exact ⟨_, rfl, rfl, rfl, rfl, rfl⟩

/-- Witness for C5 at a concrete input: the never-configured default line is
degenerate, its mesh rendering leaves the empty mesh unchanged, and its SVG
rendering panics. -/
theorem line_degenerate_render_witness :
    Line.default.render_primitive demo_render_context Mesh.default
        = (Mesh.default, PrimitiveRender.default)
    ∧ Line.default.render_svg_element demo_svg_context = none :=
  ⟨(line_degenerate_render Line.default demo_render_context Mesh.default
      demo_svg_context (by decide)).1,
   (line_degenerate_render Line.default demo_render_context Mesh.default
      demo_svg_context (by decide)).2.1 rfl⟩

/-- C6 counterexample: replaying a default rect (no color ever configured)
against the SVG backend fails — `Rect::render_svg_element` unwraps the
missing color and panics (modelled `none`) instead of falling back to a
default. -/
theorem rect_svg_missing_color_panics :
    Rect.default.render_svg_element demo_svg_context = none := rfl

/-- C6 (amended): with no explicit color, only the quad's SVG render
capability falls back to a default (the hard-coded BLACK); the line and the
rect unwrap the missing color and panic (modelled `none`). -/
theorem svg_missing_color_fallback (l : Line) (r : Rect) (q : Quad)
    (ctx : SvgRenderContext) :
    (l.path.color = none → l.render_svg_element ctx = none)
    ∧ (r.polygon.opts.color = none → r.render_svg_element ctx = none)
    ∧ (q.polygon.opts.color = none →
        (q.render_svg_element ctx).fill
          = some (color_string black_lin_srgba)) := by
  refine ⟨?_, ?_, ?_⟩
  · intro hc
    unfold Line.render_svg_element
    rw [hc]
  · intro hc
    unfold Rect.render_svg_element
    rw [hc]
  · intro hc
    unfold Quad.render_svg_element
    rw [hc]
    rfl

/-- Witness for C6 (amended) at a concrete input: the default quad has no
color and its SVG element receives the BLACK fallback fill. -/
theorem svg_missing_color_fallback_witness :
    (Quad.default.render_svg_element demo_svg_context).fill
      = some (color_string black_lin_srgba) :=
  (svg_missing_color_fallback Line.default Rect.default Quad.default
    demo_svg_context).2.2 rfl

/-- C9 counterexample: a quad whose z dimension is set renders into a mesh
without any assertion — `Quad::render_primitive` reads the z dimension into
an unused binding and silently proceeds, so the claim fails for the quad. -/
theorem quad_z_dimension_renders :
    (demo_quad_z.render_primitive demo_render_context
        Mesh.default).isSome = true := rfl

/-- C9 (amended): the rect and the ellipse assert that no z dimension is
present (a panic, modelled `none`) before rendering into a mesh, but the
quad ignores its z dimension and always renders. -/
theorem z_dimension_assertion_behavior (r : Rect) (e : Ellipse) (q : Quad)
    (ctxt : RenderContext) (mesh : Mesh) :
    (r.dimensions.z.isSome = true → r.render_primitive ctxt mesh = none)
    ∧ (e.dimensions.z.isSome = true → e.render_primitive ctxt mesh = none)
    ∧ (q.render_primitive ctxt mesh).isSome = true := by
  refine ⟨?_, ?_, rfl⟩
  · intro h
    unfold Rect.render_primitive
    rw [if_pos h]
  · intro h
    unfold Ellipse.render_primitive
    rw [if_pos h]

/-- Witness for C9 (amended) at concrete inputs: a rect and an ellipse with
a z dimension abort, the default quad renders. -/
theorem z_dimension_assertion_witness :
    demo_rect_z.render_primitive demo_render_context Mesh.default = none
    ∧ (Quad.default.render_primitive demo_render_context
        Mesh.default).isSome = true :=
  ⟨(z_dimension_assertion_behavior demo_rect_z Ellipse.default Quad.default
      demo_render_context Mesh.default).1 rfl,
   (z_dimension_assertion_behavior demo_rect_z Ellipse.default Quad.default
      demo_render_context Mesh.default).2.2⟩

end Nannou


